import Mathlib

/-!
Verification of `send_slack.py` (Economic/new_unions_papers).

The script reads a CSV of pending papers, sorts them by publication date
(descending), formats a Slack Block Kit message, posts it to a webhook and,
on success, rewrites the sent-papers ledger.  Below is a shallow embedding of
its functions: file contents are passed explicitly (`Option` models an absent
file), strings are Lean `String`s (Python compares strings by code points,
modelled by `lexLe` on `List Char`), and the HTTP response is an explicit
outcome value.
-/

namespace SendSlack

/-- One row of `union_papers_to_email.csv`, with the columns the script uses.
Python reads rows as dicts and uses `.get(key, '')`; a missing column is
modelled by the field holding `""`. -/
structure PaperRecord where
  openalex_id : String
  title : String
  authors : String
  journal : String
  doi : String
  publication_date : String
deriving DecidableEq, Repr

/-- Python string truthiness: a string tests true iff it is non-empty. -/
def truthy (s : String) : Bool := !(s == "")

/-- Lexicographic order on code-point lists; this is exactly how Python
compares strings (`a <= b`). -/
def lexLe : List Char → List Char → Bool
  | [], _ => true
  | _ :: _, [] => false
  | a :: as, b :: bs => if a = b then lexLe as bs else decide (a < b)

/-- Python `a <= b` on strings. -/
def strLe (a b : String) : Prop := lexLe a.data b.data = true

instance : DecidableRel strLe := fun _ _ =>
  inferInstanceAs (Decidable (_ = true))

/-- Python `text.replace(c, r)` for a single-character pattern `c`. -/
def replaceChar (c : Char) (r : List Char) : List Char → List Char
  | [] => []
  | a :: as => (if a = c then r else [a]) ++ replaceChar c r as

/-- The body of `escape_slack_text`: replace `&` first, then `<`, then `>`. -/
def escList (s : List Char) : List Char :=
  replaceChar '>' "&gt;".data
    (replaceChar '<' "&lt;".data
      (replaceChar '&' "&amp;".data s))

/-- `escape_slack_text(text)`: empty input short-circuits to `""`, otherwise
the three replacements are applied ampersand-first. -/
def escape_slack_text (s : String) : String :=
  if s = "" then "" else ⟨escList s.data⟩

/-- Per-character expansion performed by the escaping chain. -/
def escChar (c : Char) : List Char :=
  if c = '&' then "&amp;".data
  else if c = '<' then "&lt;".data
  else if c = '>' then "&gt;".data
  else [c]

/-- `starts p s` tests whether `p` is an initial segment of `s`. -/
def starts : List Char → List Char → Bool
  | [], _ => true
  | _ :: _, [] => false
  | a :: p, b :: s => a = b && starts p s

/-- `hasSub p s` tests whether `p` occurs contiguously in `s`
(Python `p in s`). -/
def hasSub (p : List Char) : List Char → Bool
  | [] => p.isEmpty
  | a :: s => starts p (a :: s) || hasSub p s

/-- One Slack Block Kit block, as far as the script builds them. -/
inductive Block where
  | header (text : String)
  | sect (text : String)
  | divider
  | context (text : String)
deriving DecidableEq, Repr

/-- The payload handed to the webhook: fallback `text` plus `blocks`. -/
structure SlackMessage where
  text : String
  blocks : List Block
deriving DecidableEq, Repr

/-- `paper_word = "paper" if paper_count == 1 else "papers"`. -/
def paper_word (paper_count : Nat) : String :=
  if paper_count = 1 then "paper" else "papers"

/-- `have_word = "has" if paper_count == 1 else "have"`. -/
def have_word (paper_count : Nat) : String :=
  if paper_count = 1 then "has" else "have"

/-- The summary-section text built by the f-string in `format_slack_message`,
with the count and the two chosen words spliced in. -/
def summary_text_with (paper_count : Nat) (pw hw : String) : String :=
  "The following *" ++ toString paper_count ++ " new " ++ pw ++ "* " ++ hw ++
    " been added to the <https://economic.github.io/new_unions_papers/|Recent Union Papers> list:"

/-- The summary-section text as the script builds it. -/
def summary_text (paper_count : Nat) : String :=
  summary_text_with paper_count (paper_word paper_count) (have_word paper_count)

/-- The per-paper mrkdwn text: bold authors, italic title, then the
journal/DOI segment (if any) and the date segment (if any). -/
def paper_block_text (paper : PaperRecord) : String :=
  let title := escape_slack_text paper.title
  let authors := escape_slack_text paper.authors
  let journal := escape_slack_text paper.journal
  let doi := paper.doi
  let publication_date := paper.publication_date
  let t0 := "*" ++ authors ++ "*\n_" ++ title ++ "_\n"
  let t1 :=
    if truthy doi && truthy journal then t0 ++ "📄 <" ++ doi ++ "|" ++ journal ++ ">"
    else if truthy journal then t0 ++ "📄 " ++ journal
    else t0
  if truthy publication_date then
    if truthy doi || truthy journal then t1 ++ "  |  📅 " ++ publication_date
    else t1 ++ "📅 " ++ publication_date
  else t1

/-- The part of the per-paper text before any date segment: the authors and
title header plus the journal/DOI segment, exactly as `paper_block_text`
builds it before the publication-date branch. -/
def paper_block_predate (paper : PaperRecord) : String :=
  let title := escape_slack_text paper.title
  let authors := escape_slack_text paper.authors
  let journal := escape_slack_text paper.journal
  let doi := paper.doi
  let t0 := "*" ++ authors ++ "*\n_" ++ title ++ "_\n"
  if truthy doi && truthy journal then t0 ++ "📄 <" ++ doi ++ "|" ++ journal ++ ">"
  else if truthy journal then t0 ++ "📄 " ++ journal
  else t0

/-- `format_slack_message(papers)`.  `datetime.now().strftime("%B %d, %Y")`
is impure, so the formatted current date is passed in as `today`. -/
def format_slack_message (today : String) (papers : List PaperRecord) :
    SlackMessage where
  text := "New union papers for the week ending " ++ today
  blocks :=
    [Block.header "📚 New Union Papers Detected",
     Block.sect (summary_text papers.length),
     Block.divider]
    ++ papers.map (fun p => Block.sect (paper_block_text p))
    ++ [Block.divider,
        Block.context "_Automated notification from the Union Papers tracking system_"]

/-- Outcome of the attempted HTTP POST, as the `try` block observes it:
either a response object (status plus decoded body), or one of the three
caught exception classes. -/
inductive HttpOutcome where
  | response (status : Nat) (body : String)
  | httpError (code : Nat) (reason body : String)
  | urlError (reason : String)
  | otherError (msg : String)
deriving DecidableEq, Repr

/-- `send_slack_message`: `True` iff the response has status 200 and body
`"ok"`; every caught exception yields `False`. -/
def send_slack_message (outcome : HttpOutcome) : Bool :=
  match outcome with
  | .response status body => status == 200 && body == "ok"
  | .httpError _ _ _ => false
  | .urlError _ => false
  | .otherError _ => false

/-- The descending-by-`publication_date` order used by
`papers.sort(key=lambda x: x.get('publication_date', ''), reverse=True)`. -/
def pubDateGe (a b : PaperRecord) : Prop :=
  lexLe b.publication_date.data a.publication_date.data = true

instance : DecidableRel pubDateGe := fun _ _ =>
  inferInstanceAs (Decidable (_ = true))

/-- `read_papers_to_notify`: absent file yields `[]`, otherwise the rows
sorted by publication date descending (Python's sort is stable; a stable
insertion sort realises the same ordering contract). -/
def read_papers_to_notify (file : Option (List PaperRecord)) :
    List PaperRecord :=
  match file with
  | none => []
  | some rows => List.insertionSort pubDateGe rows

/-- `read_emailed_papers`: the set of ids in the ledger, as a duplicate-free
list.  The ledger file is a list of lines: a header line followed by one id
per line (`csv.DictReader` consumes the header and yields the data rows);
an absent file yields the empty set. -/
def read_emailed_papers (file : Option (List String)) : List String :=
  match file with
  | none => []
  | some [] => []
  | some (_header :: rows) => rows.dedup

/-- `update_emailed_papers`: merge the new records' ids into the existing
ledger set and rewrite the whole file: the `openalex_id` header line followed
by all ids in ascending sorted order (Python `sorted` on the id set). -/
def update_emailed_papers (papers : List PaperRecord)
    (file : Option (List String)) : List String :=
  "openalex_id" ::
    List.insertionSort strLe
      ((read_emailed_papers file ++ papers.map (·.openalex_id)).dedup)

/-- Everything `main` observes from the outside world: the two files, the
`SLACK_WEBHOOK_URL` environment variable, today's formatted date, and the
outcome of the HTTP POST (consulted only if a POST happens). -/
structure Env where
  pending : Option (List PaperRecord)
  webhook : Option String
  today : String
  outcome : HttpOutcome
  ledger : Option (List String)

/-- What a run leaves behind: the process exit code, the ledger file after
the run, and the message passed to `send_slack_message` (if any). -/
structure RunResult where
  exitCode : Nat
  ledger : Option (List String)
  sentMessage : Option SlackMessage
deriving DecidableEq, Repr

/-- Python truthiness of `os.getenv(...)`: `None` and `""` are falsy. -/
def truthyOpt : Option String → Bool
  | none => false
  | some s => truthy s

/-- `main()`: load, check config, format, send, and update the ledger only
on a successful send. -/
def main (e : Env) : RunResult :=
  let papers := read_papers_to_notify e.pending
  if papers.isEmpty then
    ⟨0, e.ledger, none⟩
  else if !truthyOpt e.webhook then
    ⟨1, e.ledger, none⟩
  else
    let message := format_slack_message e.today papers
    if send_slack_message e.outcome then
      ⟨0, some (update_emailed_papers papers e.ledger), some message⟩
    else
      ⟨1, e.ledger, some message⟩

/-! ### Concrete sample data used by witnesses and counterexamples -/

/-- The record of the claimed counterexample case: non-empty doi, empty
journal, non-empty publication date. -/
def doiOnlyPaper : PaperRecord :=
  ⟨"W1", "T", "A", "", "https://doi.org/x", "2024-05-01"⟩

/-- Sample records carrying the dates of the sorting example. -/
def datedPaper1 : PaperRecord := ⟨"Wa", "t1", "a1", "j1", "d1", "2024-01-01"⟩

/-- Second sample record (later date). -/
def datedPaper2 : PaperRecord := ⟨"Wb", "t2", "a2", "j2", "d2", "2024-03-01"⟩

/-- Third sample record (empty date). -/
def datedPaper3 : PaperRecord := ⟨"Wc", "t3", "a3", "j3", "d3", ""⟩

/-- Records whose ids are the ledger example set `W3`, `W1`, `W2`. -/
def ledgerPaperW3 : PaperRecord := ⟨"W3", "", "", "", "", ""⟩

/-- Record with id `W1`. -/
def ledgerPaperW1 : PaperRecord := ⟨"W1", "", "", "", "", ""⟩

/-- Record with id `W2`. -/
def ledgerPaperW2 : PaperRecord := ⟨"W2", "", "", "", "", ""⟩

/-- An environment whose delivery attempt fails with an HTTP 500. -/
def failingEnv : Env where
  pending := some [doiOnlyPaper]
  webhook := some "https://hooks.slack.com/services/T000/B000/XXX"
  today := "May 02, 2024"
  outcome := .httpError 500 "Internal Server Error" ""
  ledger := none

/-- Same run as `failingEnv` but with a non-trivial pre-existing ledger. -/
def failingEnvWithLedger : Env :=
  { failingEnv with ledger := some ["openalex_id", "W0"] }

/-! ### Order lemmas -/

theorem lexLe_total : ∀ a b : List Char, lexLe a b = true ∨ lexLe b a = true
  | [], _ => .inl rfl
  | _ :: _, [] => .inr rfl
  | a :: as, b :: bs => by
    by_cases hab : a = b
    · subst hab
      simpa [lexLe] using lexLe_total as bs
    · rcases lt_or_gt_of_ne hab with h | h
      · exact .inl (by simp [lexLe, hab, h])
      · exact .inr (by simp [lexLe, Ne.symm hab, h])

theorem lexLe_trans : ∀ a b c : List Char,
    lexLe a b = true → lexLe b c = true → lexLe a c = true
  | [], _, _, _, _ => rfl
  | _ :: _, [], _, h, _ => by simp [lexLe] at h
  | _ :: _, _ :: _, [], _, h => by simp [lexLe] at h
  | a :: as, b :: bs, c :: cs, hab, hbc => by
    by_cases h1 : a = b <;> by_cases h2 : b = c
    · subst h1; subst h2
      simp only [lexLe, if_pos rfl] at *
      exact lexLe_trans as bs cs hab hbc
    · subst h1
      simp only [lexLe, if_pos rfl, if_neg h2] at *
      exact hbc
    · subst h2
      simp only [lexLe, if_pos rfl, if_neg h1] at *
      exact hab
    · simp only [lexLe, if_neg h1, if_neg h2, decide_eq_true_eq] at hab hbc
      have hac : a < c := lt_trans hab hbc
      simp [lexLe, ne_of_lt hac, hac]

theorem lexLe_nil_right : ∀ a : List Char, lexLe a [] = true → a = []
  | [], _ => rfl
  | _ :: _, h => by simp [lexLe] at h

instance : IsTotal String strLe := ⟨fun a b => lexLe_total a.data b.data⟩

instance : IsTrans String strLe := ⟨fun a b c => lexLe_trans a.data b.data c.data⟩

instance : IsTotal PaperRecord pubDateGe :=
  ⟨fun a b => lexLe_total b.publication_date.data a.publication_date.data⟩

instance : IsTrans PaperRecord pubDateGe :=
  ⟨fun a b c hab hbc =>
    lexLe_trans c.publication_date.data b.publication_date.data
      a.publication_date.data hbc hab⟩

/-! ### Escaping lemmas -/

theorem data_escape_slack_text (s : String) :
    (escape_slack_text s).data = escList s.data := by
  by_cases h : s = ""
  · subst h; rfl
  · simp [escape_slack_text, h]

theorem replaceChar_append (c : Char) (r xs ys : List Char) :
    replaceChar c r (xs ++ ys) = replaceChar c r xs ++ replaceChar c r ys := by
  induction xs with
  | nil => rfl
  | cons a as ih => simp [replaceChar, ih]

theorem escList_cons (a : Char) (s : List Char) :
    escList (a :: s) = escChar a ++ escList s := by
  show escList ([a] ++ s) = _
  simp only [escList, replaceChar_append]
  congr 1
  by_cases h1 : a = '&'
  · subst h1; rfl
  · by_cases h2 : a = '<'
    · subst h2; rfl
    · by_cases h3 : a = '>'
      · subst h3; rfl
      · simp [replaceChar, escChar, h1, h2, h3]

theorem escList_eq_flatMap (s : List Char) : escList s = s.flatMap escChar := by
  induction s with
  | nil => rfl
  | cons a as ih => rw [escList_cons, ih]; rfl

/-! ### Substring lemmas -/

theorem starts_iff (p s : List Char) :
    starts p s = true ↔ ∃ t, s = p ++ t := by
  induction p generalizing s with
  | nil => simpa [starts] using ⟨s, rfl⟩
  | cons a p ih =>
    cases s with
    | nil =>
      simp only [starts, Bool.false_eq_true, false_iff]
      rintro ⟨t, ht⟩
      exact List.cons_ne_nil _ _ ht.symm
    | cons b s =>
      simp only [starts, Bool.and_eq_true, decide_eq_true_eq, ih]
      constructor
      · rintro ⟨rfl, t, rfl⟩
        exact ⟨t, rfl⟩
      · rintro ⟨t, ht⟩
        obtain ⟨h1, h2⟩ := List.cons.inj ht
        exact ⟨h1.symm, t, h2⟩

theorem starts_self_append (p t : List Char) : starts p (p ++ t) = true :=
  (starts_iff p (p ++ t)).mpr ⟨t, rfl⟩

theorem hasSub_iff (p s : List Char) :
    hasSub p s = true ↔ ∃ u v, s = u ++ p ++ v := by
  induction s with
  | nil =>
    simp only [hasSub, List.isEmpty_iff]
    constructor
    · rintro rfl
      exact ⟨[], [], rfl⟩
    · rintro ⟨u, v, huv⟩
      rcases List.append_eq_nil.mp huv.symm with ⟨h1, _⟩
      exact (List.append_eq_nil.mp h1).2
  | cons a s ih =>
    simp only [hasSub, Bool.or_eq_true, starts_iff, ih]
    constructor
    · rintro (⟨t, ht⟩ | ⟨u, v, rfl⟩)
      · exact ⟨[], t, by simpa using ht⟩
      · exact ⟨a :: u, v, rfl⟩
    · rintro ⟨u, v, huv⟩
      cases u with
      | nil => exact .inl ⟨v, by simpa using huv⟩
      | cons b u =>
        obtain ⟨-, h2⟩ := List.cons.inj huv
        exact .inr ⟨u, v, h2⟩

theorem hasSub_of_starts {p s : List Char} (h : starts p s = true) :
    hasSub p s = true := by
  obtain ⟨t, rfl⟩ := (starts_iff p s).mp h
  exact (hasSub_iff p _).mpr ⟨[], t, rfl⟩

theorem hasSub_cons_of_hasSub {p s : List Char} (a : Char)
    (h : hasSub p s = true) : hasSub p (a :: s) = true := by
  simp [hasSub, h]

/-- An occurrence inside `x ++ y` either straddles a (non-strict) suffix of
`x`, or lies wholly inside `y`. -/
theorem hasSub_append_split {p x y : List Char}
    (h : hasSub p (x ++ y) = true) :
    (∃ t, t <:+ x ∧ starts p (t ++ y) = true) ∨ hasSub p y = true := by
  induction x with
  | nil => exact .inr h
  | cons a x ih =>
    rw [List.cons_append, hasSub, Bool.or_eq_true] at h
    rcases h with h | h
    · exact .inl ⟨a :: x, List.suffix_refl _, h⟩
    · rcases ih h with ⟨t, ht, hst⟩ | h
      · exact .inl ⟨t, ht.trans (List.suffix_cons a x), hst⟩
      · exact .inr h

/-! ### Claim C3 -/

/-- Claim C3: `send_slack_message` returns `True` iff the response status is
exactly 200 and the body is exactly the string `ok`; each caught
transport-level error (HTTP error status, URL/connection error, any other
exception) makes it return `False` instead of propagating a fault. -/
theorem send_slack_message_ok_iff (o : HttpOutcome) :
    (send_slack_message o = true ↔ o = .response 200 "ok") ∧
    (∀ code reason body, send_slack_message (.httpError code reason body) = false) ∧
    (∀ reason, send_slack_message (.urlError reason) = false) ∧
    (∀ msg, send_slack_message (.otherError msg) = false) := by
  refine ⟨?_, fun _ _ _ => rfl, fun _ => rfl, fun _ => rfl⟩
  cases o <;> simp [send_slack_message]

/-! ### Claim C8 -/

/-- Claim C8: an absent pending-papers file makes `read_papers_to_notify`
return the empty sequence, and an absent ledger file makes
`read_emailed_papers` return the empty set; neither errors. -/
theorem absent_files_yield_empty :
    read_papers_to_notify none = [] ∧ read_emailed_papers none = [] :=
  ⟨rfl, rfl⟩

/-! ### Claim C4 -/

/-- Claim C4: when the pending file is non-empty, the webhook URL is
configured and delivery fails, `main` exits with code 1 and leaves the
ledger file exactly as it was. -/
theorem main_failed_send_leaves_ledger (e : Env)
    (hp : read_papers_to_notify e.pending ≠ [])
    (hw : truthyOpt e.webhook = true)
    (hs : send_slack_message e.outcome = false) :
    (main e).exitCode = 1 ∧ (main e).ledger = e.ledger := by
  have hne : (read_papers_to_notify e.pending).isEmpty = false := by
    simpa [List.isEmpty_iff] using hp
  simp [main, hne, hw, hs]

/-- Witness for C4: a concrete failing run (HTTP 500) exits 1 and leaves the
(absent) ledger absent. -/
theorem main_failed_send_leaves_ledger_witness :
    read_papers_to_notify failingEnv.pending ≠ [] ∧
    truthyOpt failingEnv.webhook = true ∧
    send_slack_message failingEnv.outcome = false ∧
    (main failingEnv).exitCode = 1 ∧ (main failingEnv).ledger = failingEnv.ledger := by
  refine ⟨by decide, by decide, by decide, ?_⟩
  exact main_failed_send_leaves_ledger failingEnv (by decide) (by decide) (by decide)

/-! ### Claim C10 -/

/-- Claim C10: the message handed to `send_slack_message` depends only on
the pending rows, the date and the webhook configuration — two runs that
differ only in the ledger file (and the HTTP outcome) pass identical
messages to the notifier. -/
theorem message_independent_of_ledger (e1 e2 : Env)
    (hp : e1.pending = e2.pending) (ht : e1.today = e2.today)
    (hw : e1.webhook = e2.webhook) :
    (main e1).sentMessage = (main e2).sentMessage := by
  simp only [main, hp, ht, hw]
  cases hE : (read_papers_to_notify e2.pending).isEmpty <;>
    cases hW : truthyOpt e2.webhook <;>
      cases h1 : send_slack_message e1.outcome <;>
        cases h2 : send_slack_message e2.outcome <;>
          simp [hE, hW, h1, h2]

/-- Witness for C10: the same run with an absent ledger and with a
pre-populated ledger sends the identical message. -/
theorem message_independent_of_ledger_witness :
    failingEnv.pending = failingEnvWithLedger.pending ∧
    failingEnv.today = failingEnvWithLedger.today ∧
    failingEnv.webhook = failingEnvWithLedger.webhook ∧
    failingEnv.ledger ≠ failingEnvWithLedger.ledger ∧
    (main failingEnv).sentMessage = (main failingEnvWithLedger).sentMessage := by
  refine ⟨rfl, rfl, rfl, by decide, ?_⟩
  exact message_independent_of_ledger failingEnv failingEnvWithLedger rfl rfl rfl

/-! ### Claim C5 -/

/-- Claim C5: `read_papers_to_notify` returns a permutation of the rows,
sorted by `publication_date` descending (lexical comparison), so empty-date
records come last; on dates `2024-01-01`, `2024-03-01`, `""` the order is
`2024-03-01`, `2024-01-01`, `""`. -/
theorem read_papers_sorted_desc (rows : List PaperRecord) :
    (read_papers_to_notify (some rows)).Perm rows ∧
    List.Sorted pubDateGe (read_papers_to_notify (some rows)) ∧
    List.Pairwise (fun a b => a.publication_date = "" → b.publication_date = "")
      (read_papers_to_notify (some rows)) ∧
    read_papers_to_notify (some [datedPaper1, datedPaper2, datedPaper3]) =
      [datedPaper2, datedPaper1, datedPaper3] := by
  refine ⟨List.perm_insertionSort _ _, List.sorted_insertionSort _ _, ?_, by decide⟩
  refine List.Pairwise.imp (fun {a b} hab ha => ?_)
    (List.sorted_insertionSort pubDateGe rows)
  have h1 : lexLe b.publication_date.data a.publication_date.data = true := hab
  rw [ha] at h1
  exact String.ext (lexLe_nil_right _ h1)

/-! ### Claims C6 and C7: shared ledger-update specification -/

/-- The full behaviour of `update_emailed_papers`: the written file is the
header followed by a sorted, duplicate-free body whose elements are exactly
the union of the old ids and the new records' ids, and reading the file back
returns exactly that body. -/
theorem update_emailed_papers_spec (papers : List PaperRecord)
    (file : Option (List String)) :
    update_emailed_papers papers file =
      "openalex_id" :: (update_emailed_papers papers file).tail ∧
    List.Sorted strLe (update_emailed_papers papers file).tail ∧
    (update_emailed_papers papers file).tail.Nodup ∧
    (update_emailed_papers papers file).tail.toFinset =
      (read_emailed_papers file).toFinset ∪
        (papers.map (·.openalex_id)).toFinset ∧
    read_emailed_papers (some (update_emailed_papers papers file)) =
      (update_emailed_papers papers file).tail := by
  have htail : (update_emailed_papers papers file).tail =
      List.insertionSort strLe
        ((read_emailed_papers file ++ papers.map (·.openalex_id)).dedup) := rfl
  have hnodup : (update_emailed_papers papers file).tail.Nodup := by
    rw [htail]
    exact (List.perm_insertionSort strLe _).nodup_iff.mpr (List.nodup_dedup _)
  refine ⟨rfl, ?_, hnodup, ?_, ?_⟩
  · rw [htail]
    exact List.sorted_insertionSort strLe _
  · rw [htail]
    rw [List.toFinset_eq_of_perm _ _ (List.perm_insertionSort strLe _)]
    ext a
    simp [List.mem_dedup]
  · show ((update_emailed_papers papers file).tail).dedup = _
    exact List.dedup_eq_self.mpr hnodup

/-- Claim C6: `update_emailed_papers` rewrites the ledger as a header row
followed by the duplicate-free union of old and new ids in ascending order,
and `read_emailed_papers` reads exactly that union back; writing ids
`W3`, `W1`, `W2` to an absent ledger produces `W1`, `W2`, `W3`. -/
theorem ledger_rewrite_roundtrip (papers : List PaperRecord)
    (file : Option (List String)) :
    update_emailed_papers papers file =
      "openalex_id" :: (update_emailed_papers papers file).tail ∧
    List.Sorted strLe (update_emailed_papers papers file).tail ∧
    (update_emailed_papers papers file).tail.Nodup ∧
    (update_emailed_papers papers file).tail.toFinset =
      (read_emailed_papers file).toFinset ∪
        (papers.map (·.openalex_id)).toFinset ∧
    (read_emailed_papers (some (update_emailed_papers papers file))).toFinset =
      (read_emailed_papers file).toFinset ∪
        (papers.map (·.openalex_id)).toFinset ∧
    update_emailed_papers [ledgerPaperW3, ledgerPaperW1, ledgerPaperW2] none =
      ["openalex_id", "W1", "W2", "W3"] := by
  obtain ⟨h1, h2, h3, h4, h5⟩ := update_emailed_papers_spec papers file
  exact ⟨h1, h2, h3, h4, by rw [h5]; exact h4, by decide⟩

/-- Claim C7: the ledger only grows — after `update_emailed_papers` the
readable id set contains every id readable before, and it stays
duplicate-free. -/
theorem ledger_monotone (papers : List PaperRecord)
    (file : Option (List String)) :
    (read_emailed_papers file).toFinset ⊆
      (read_emailed_papers (some (update_emailed_papers papers file))).toFinset ∧
    (read_emailed_papers (some (update_emailed_papers papers file))).Nodup := by
  obtain ⟨_, _, h3, h4, h5⟩ := update_emailed_papers_spec papers file
  rw [h5, h4]
  exact ⟨Finset.subset_union_left, h3⟩

/-! ### Claim C9 -/

theorem length_summary_ne (n : Nat) :
    summary_text_with n "papers" "have" ≠ summary_text_with n "paper" "has" := by
  intro h
  have hlen := congrArg String.length h
  have h6 : ("papers" : String).length = 6 := rfl
  have h5 : ("paper" : String).length = 5 := rfl
  have h4 : ("have" : String).length = 4 := rfl
  have h3 : ("has" : String).length = 3 := rfl
  simp only [summary_text_with, String.length_append, h6, h5, h4, h3] at hlen
  omega

/-- Claim C9: the summary section of the formatted message (the second
block) uses the words `paper` and `has` iff the paper count is 1, and
`papers` and `have` otherwise. -/
theorem summary_pluralization (today : String) (papers : List PaperRecord)
    (hne : papers ≠ []) :
    ((format_slack_message today papers).blocks[1]? =
        some (Block.sect (summary_text_with papers.length "paper" "has")) ↔
      papers.length = 1) ∧
    ((format_slack_message today papers).blocks[1]? =
        some (Block.sect (summary_text_with papers.length "papers" "have")) ↔
      papers.length ≠ 1) := by
  have hblock : (format_slack_message today papers).blocks[1]? =
      some (Block.sect (summary_text papers.length)) := rfl
  rw [hblock]
  by_cases h : papers.length = 1
  · have e1 : summary_text papers.length =
        summary_text_with papers.length "paper" "has" := by
      rw [h]; rfl
    rw [e1]
    constructor
    · exact iff_of_true rfl h
    · refine iff_of_false (fun heq => ?_) (by simp [h])
      simp only [Option.some.injEq, Block.sect.injEq] at heq
      exact length_summary_ne papers.length heq.symm
  · have e2 : summary_text papers.length =
        summary_text_with papers.length "papers" "have" := by
      unfold summary_text paper_word have_word
      rw [if_neg h, if_neg h]
    rw [e2]
    constructor
    · refine iff_of_false (fun heq => ?_) h
      simp only [Option.some.injEq, Block.sect.injEq] at heq
      exact length_summary_ne papers.length heq
    · exact iff_of_true rfl h

/-- Witness for C9: with exactly one paper the summary block carries
`paper`/`has`, and the `papers`/`have` reading is refuted. -/
theorem summary_pluralization_witness :
    [doiOnlyPaper] ≠ ([] : List PaperRecord) ∧
    (((format_slack_message "May 02, 2024" [doiOnlyPaper]).blocks[1]? =
        some (Block.sect (summary_text_with [doiOnlyPaper].length "paper" "has")) ↔
      [doiOnlyPaper].length = 1) ∧
    ((format_slack_message "May 02, 2024" [doiOnlyPaper]).blocks[1]? =
        some (Block.sect (summary_text_with [doiOnlyPaper].length "papers" "have")) ↔
      [doiOnlyPaper].length ≠ 1)) := by
  refine ⟨by simp, ?_⟩
  exact summary_pluralization "May 02, 2024" [doiOnlyPaper] (by simp)

/-! ### Claim C1 -/

/-- Claim C1 counterexample: for a record with non-empty doi, empty journal
and non-empty publication date, the code emits no journal segment but still
prepends the vertical-bar separator to the date segment — the date does not
start its line directly. -/
theorem date_separator_counterexample :
    truthy doiOnlyPaper.doi = true ∧ doiOnlyPaper.journal = "" ∧
    truthy doiOnlyPaper.publication_date = true ∧
    paper_block_text doiOnlyPaper = "*A*\n_T_\n  |  📅 2024-05-01" ∧
    hasSub "  |  ".data (paper_block_text doiOnlyPaper).data = true :=
  ⟨rfl, rfl, rfl, by decide, by decide⟩

theorem truthy_empty : truthy "" = false := rfl

theorem escChar_ne_nil (c : Char) : escChar c ≠ [] := by
  unfold escChar
  split
  · decide
  · split
    · decide
    · split
      · decide
      · exact List.cons_ne_nil _ _

/-- Escaping preserves Python truthiness: the escaped text is empty iff the
original was. -/
theorem truthy_escape (s : String) :
    truthy (escape_slack_text s) = truthy s := by
  by_cases h : s = ""
  · subst h; rfl
  · have h1 : truthy s = true := by simp [truthy, h]
    rw [h1]
    simp only [escape_slack_text, if_neg h]
    cases hsd : s.data with
    | nil => exact absurd (String.ext hsd) h
    | cons a as =>
      have hne : escList s.data ≠ [] := by
        rw [hsd, escList_cons]
        intro hnil
        exact escChar_ne_nil a (List.append_eq_nil.mp hnil).1
      have hne' : (⟨escList s.data⟩ : String) ≠ "" := fun heq =>
        hne (congrArg String.data heq)
      rw [hsd] at hne'
      simp [truthy, hne']

/-- Claim C1 as amended: for every record with a non-empty publication
date, the paper block is the pre-date text followed by the date segment,
and the date segment is preceded by the vertical-bar separator iff `doi` or
`journal` is non-empty (the raw fields, not whether a journal segment was
emitted); when both are empty the date segment follows the pre-date text
directly.  When the journal is empty the pre-date text is just the
authors/title header ending in a newline, so with a non-empty doi the
separator dangles after that header, and with an empty doi the date starts
its line directly. -/
theorem date_separator_iff_doi_or_journal (p : PaperRecord)
    (hpd : truthy p.publication_date = true) :
    (paper_block_text p =
        paper_block_predate p ++ "  |  📅 " ++ p.publication_date ↔
      (truthy p.doi || truthy p.journal) = true) ∧
    (paper_block_text p =
        paper_block_predate p ++ "📅 " ++ p.publication_date ↔
      (truthy p.doi || truthy p.journal) = false) ∧
    (p.journal = "" →
      paper_block_predate p =
        "*" ++ escape_slack_text p.authors ++ "*\n_" ++
          escape_slack_text p.title ++ "_\n") := by
  have hsep_ne :
      paper_block_predate p ++ "  |  📅 " ++ p.publication_date ≠
        paper_block_predate p ++ "📅 " ++ p.publication_date := by
    intro h
    have hlen := congrArg String.length h
    have l1 : ("  |  📅 " : String).length = 7 := rfl
    have l2 : ("📅 " : String).length = 2 := rfl
    simp only [String.length_append, l1, l2] at hlen
    omega
  have hpre : p.journal = "" →
      paper_block_predate p =
        "*" ++ escape_slack_text p.authors ++ "*\n_" ++
          escape_slack_text p.title ++ "_\n" := by
    intro hj
    have hje : escape_slack_text p.journal = "" := by rw [hj]; rfl
    simp [paper_block_predate, hje, truthy_empty]
  by_cases hc : (truthy p.doi || truthy p.journal) = true
  · have hcesc : (truthy p.doi || truthy (escape_slack_text p.journal)) = true := by
      rw [truthy_escape]
      exact hc
    have heq : paper_block_text p =
        paper_block_predate p ++ "  |  📅 " ++ p.publication_date := by
      simp [paper_block_text, paper_block_predate, hpd, hcesc]
    refine ⟨iff_of_true heq hc, iff_of_false ?_ (by simp [hc]), hpre⟩
    rw [heq]
    exact hsep_ne
  · have hcf : (truthy p.doi || truthy p.journal) = false := by
      revert hc
      cases truthy p.doi || truthy p.journal <;> simp
    have hcfesc : (truthy p.doi || truthy (escape_slack_text p.journal)) = false := by
      rw [truthy_escape]
      exact hcf
    have heq : paper_block_text p =
        paper_block_predate p ++ "📅 " ++ p.publication_date := by
      simp [paper_block_text, paper_block_predate, hpd, hcfesc]
    refine ⟨iff_of_false ?_ hc, iff_of_true heq hcf, hpre⟩
    rw [heq]
    exact fun h => hsep_ne h.symm

/-- Witness for the amended C1 at the counterexample record (non-empty doi,
empty journal, non-empty date): the separator form holds and the direct
form is refuted. -/
theorem date_separator_iff_doi_or_journal_witness :
    truthy doiOnlyPaper.publication_date = true ∧
    ((paper_block_text doiOnlyPaper =
        paper_block_predate doiOnlyPaper ++ "  |  📅 " ++
          doiOnlyPaper.publication_date ↔
      (truthy doiOnlyPaper.doi || truthy doiOnlyPaper.journal) = true) ∧
    (paper_block_text doiOnlyPaper =
        paper_block_predate doiOnlyPaper ++ "📅 " ++
          doiOnlyPaper.publication_date ↔
      (truthy doiOnlyPaper.doi || truthy doiOnlyPaper.journal) = false) ∧
    (doiOnlyPaper.journal = "" →
      paper_block_predate doiOnlyPaper =
        "*" ++ escape_slack_text doiOnlyPaper.authors ++ "*\n_" ++
          escape_slack_text doiOnlyPaper.title ++ "_\n")) :=
  ⟨rfl, date_separator_iff_doi_or_journal doiOnlyPaper rfl⟩

/-! ### Claim C2 -/

theorem starts_append_cancel : ∀ p q r : List Char,
    starts (p ++ q) (p ++ r) = starts q r
  | [], _, _ => rfl
  | a :: p, q, r => by simp [starts, starts_append_cancel p q r]

/-- Every character of the expansion blocks other than a block-initial `&`
is an unescaped character, so a prefix made of non-special characters pulls
back through `flatMap escChar`. -/
theorem starts_flatMap_escChar : ∀ (w s : List Char),
    (∀ c ∈ w, c ≠ '&' ∧ c ≠ '<' ∧ c ≠ '>') →
    starts w (s.flatMap escChar) = true → starts w s = true
  | [], _, _, _ => rfl
  | c :: w', s, hns, h => by
    cases s with
    | nil => simp [starts] at h
    | cons d s' =>
      obtain ⟨hc1, hc2, hc3⟩ := hns c (by simp)
      rw [List.flatMap_cons] at h
      by_cases hd1 : d = '&'
      · subst hd1
        have he : escChar '&' = '&' :: "amp;".data := rfl
        rw [he] at h
        simp only [List.cons_append, starts, Bool.and_eq_true,
          decide_eq_true_eq] at h
        exact absurd h.1 hc1
      · by_cases hd2 : d = '<'
        · subst hd2
          have he : escChar '<' = '&' :: "lt;".data := rfl
          rw [he] at h
          simp only [List.cons_append, starts, Bool.and_eq_true,
            decide_eq_true_eq] at h
          exact absurd h.1 hc1
        · by_cases hd3 : d = '>'
          · subst hd3
            have he : escChar '>' = '&' :: "gt;".data := rfl
            rw [he] at h
            simp only [List.cons_append, starts, Bool.and_eq_true,
              decide_eq_true_eq] at h
            exact absurd h.1 hc1
          · have he : escChar d = [d] := by simp [escChar, hd1, hd2, hd3]
            rw [he] at h
            simp only [List.cons_append, List.nil_append, starts,
              Bool.and_eq_true, decide_eq_true_eq] at h ⊢
            exact ⟨h.1,
              starts_flatMap_escChar w' s' (fun x hx => hns x (by simp [hx])) h.2⟩

theorem starts_amp9_head {d : Char} {xs : List Char}
    (h : starts "&amp;amp;".data (d :: xs) = true) : d = '&' := by
  have he : "&amp;amp;".data = '&' :: "amp;amp;".data := rfl
  rw [he] at h
  simp only [starts, Bool.and_eq_true, decide_eq_true_eq] at h
  exact h.1.symm

/-- A nonempty suffix of a list whose head is the only `&` and that begins
with `&` must be the whole list. -/
theorem suffix_head_amp {t' l : List Char}
    (hsuf : ('&' :: t') <:+ ('&' :: l)) (hl : '&' ∉ l) :
    '&' :: t' = '&' :: l := by
  obtain ⟨u, hu⟩ := hsuf
  cases u with
  | nil => simpa using hu
  | cons x u' =>
    obtain ⟨-, h2⟩ := List.cons.inj hu
    exact absurd (h2 ▸ (by simp : '&' ∈ u' ++ '&' :: t')) hl

/-- Where an occurrence of `&amp;amp;` can start relative to one expansion
block: either the block is the expansion of `&` and `amp;` must follow, or
the occurrence starts after the block. -/
theorem starts_amp9_of_suffix (c : Char) (t rest : List Char)
    (hsuf : t <:+ escChar c)
    (hst : starts "&amp;amp;".data (t ++ rest) = true) :
    (c = '&' ∧ starts "amp;".data rest = true) ∨
    starts "&amp;amp;".data rest = true := by
  cases t with
  | nil => exact .inr hst
  | cons d t' =>
    have hd : d = '&' := starts_amp9_head (by simpa using hst)
    subst hd
    by_cases h1 : c = '&'
    · subst h1
      have he : escChar '&' = '&' :: "amp;".data := rfl
      rw [he] at hsuf
      have ht := suffix_head_amp hsuf (by decide)
      rw [ht] at hst
      left
      refine ⟨rfl, ?_⟩
      have hsplit : "&amp;amp;".data = "&amp;".data ++ "amp;".data := rfl
      have hfull : ('&' :: "amp;".data) ++ rest = "&amp;".data ++ rest := rfl
      rw [hfull, hsplit, starts_append_cancel] at hst
      exact hst
    · by_cases h2 : c = '<'
      · subst h2
        exfalso
        have he : escChar '<' = '&' :: "lt;".data := rfl
        rw [he] at hsuf
        have ht := suffix_head_amp hsuf (by decide)
        rw [ht] at hst
        have he2 : (('&' :: "lt;".data) ++ rest) =
            '&' :: 'l' :: 't' :: ';' :: rest := rfl
        rw [he2] at hst
        have he3 : "&amp;amp;".data =
            '&' :: 'a' :: 'm' :: 'p' :: ';' :: "amp;".data := rfl
        rw [he3] at hst
        simp [starts] at hst
      · by_cases h3 : c = '>'
        · subst h3
          exfalso
          have he : escChar '>' = '&' :: "gt;".data := rfl
          rw [he] at hsuf
          have ht := suffix_head_amp hsuf (by decide)
          rw [ht] at hst
          have he2 : (('&' :: "gt;".data) ++ rest) =
              '&' :: 'g' :: 't' :: ';' :: rest := rfl
          rw [he2] at hst
          have he3 : "&amp;amp;".data =
              '&' :: 'a' :: 'm' :: 'p' :: ';' :: "amp;".data := rfl
          rw [he3] at hst
          simp [starts] at hst
        · exfalso
          have he : escChar c = [c] := by simp [escChar, h1, h2, h3]
          rw [he] at hsuf
          obtain ⟨u, hu⟩ := hsuf
          cases u with
          | nil =>
            obtain ⟨hc, -⟩ := List.cons.inj hu
            exact h1 hc.symm
          | cons x u' =>
            obtain ⟨-, hrest⟩ := List.cons.inj hu
            exact absurd hrest (by simp)

/-- The parse-back lemma: an occurrence of `&amp;amp;` in the escaped output
can only come from an occurrence of `&amp;` in the input. -/
theorem hasSub_amp9_flatMap : ∀ s : List Char,
    hasSub "&amp;amp;".data (s.flatMap escChar) = true →
    hasSub "&amp;".data s = true
  | [] => by intro h; exact absurd h (by decide)
  | c :: s => by
    intro h
    rw [List.flatMap_cons] at h
    rcases hasSub_append_split h with ⟨t, hsuf, hst⟩ | h
    · rcases starts_amp9_of_suffix c t _ hsuf hst with ⟨hc, hrest⟩ | hrest
      · subst hc
        have h4 : starts "amp;".data s = true :=
          starts_flatMap_escChar _ s (by decide) hrest
        have hstart : starts "&amp;".data ('&' :: s) = true := by
          have he : "&amp;".data = '&' :: "amp;".data := rfl
          rw [he]
          simp [starts, h4]
        exact hasSub_of_starts hstart
      · exact hasSub_cons_of_hasSub c (hasSub_amp9_flatMap s (hasSub_of_starts hrest))
    · exact hasSub_cons_of_hasSub c (hasSub_amp9_flatMap s h)

/-- A character occurring in the input puts its expansion block in the
output. -/
theorem hasSub_escChar_of_mem {c : Char} {s : List Char} (h : c ∈ s) :
    hasSub (escChar c) (s.flatMap escChar) = true := by
  obtain ⟨u, v, rfl⟩ := List.append_of_mem h
  rw [hasSub_iff]
  exact ⟨u.flatMap escChar, v.flatMap escChar,
    by simp [List.flatMap_append, List.flatMap_cons, List.append_assoc]⟩

/-- Claim C2 counterexample: the input `&amp;` contains `&`, and escaping it
produces `&amp;amp;` — the output does contain the double-escaped sequence,
so "never contains `&amp;amp;`" fails as stated. -/
theorem escape_double_escape_counterexample :
    '&' ∈ ("&amp;" : String).data ∧
    escape_slack_text "&amp;" = "&amp;amp;" ∧
    hasSub "&amp;amp;".data (escape_slack_text "&amp;").data = true :=
  ⟨by decide, by decide, by decide⟩

/-- Claim C2 as amended: escaping an input containing `&`, `<`, `>` puts
`&amp;`, `&lt;`, `&gt;` in the output; the replacements are applied
ampersand-first (so the entities inserted for `<` and `>` are not further
escaped); and the output contains `&amp;amp;` only if the input already
contained the literal text `&amp;`. -/
theorem escape_entities_no_reescape (s : String) :
    ('&' ∈ s.data → hasSub "&amp;".data (escape_slack_text s).data = true) ∧
    ('<' ∈ s.data → hasSub "&lt;".data (escape_slack_text s).data = true) ∧
    ('>' ∈ s.data → hasSub "&gt;".data (escape_slack_text s).data = true) ∧
    escape_slack_text "&" = "&amp;" ∧
    escape_slack_text "<" = "&lt;" ∧
    escape_slack_text ">" = "&gt;" ∧
    (hasSub "&amp;".data s.data = false →
      hasSub "&amp;amp;".data (escape_slack_text s).data = false) := by
  rw [data_escape_slack_text, escList_eq_flatMap]
  refine ⟨fun h => ?_, fun h => ?_, fun h => ?_, by decide, by decide, by decide,
    fun hno => ?_⟩
  · exact (show escChar '&' = "&amp;".data from rfl) ▸ hasSub_escChar_of_mem h
  · exact (show escChar '<' = "&lt;".data from rfl) ▸ hasSub_escChar_of_mem h
  · exact (show escChar '>' = "&gt;".data from rfl) ▸ hasSub_escChar_of_mem h
  · cases hq : hasSub "&amp;amp;".data (s.data.flatMap escChar) with
    | false => rfl
    | true => exact absurd (hasSub_amp9_flatMap s.data hq) (by simp [hno])

/-- Witness for the amended C2 at the input `a&b<c>d`. -/
theorem escape_entities_no_reescape_witness :
    '&' ∈ ("a&b<c>d" : String).data ∧
    '<' ∈ ("a&b<c>d" : String).data ∧
    '>' ∈ ("a&b<c>d" : String).data ∧
    hasSub "&amp;".data ("a&b<c>d" : String).data = false ∧
    hasSub "&amp;".data (escape_slack_text "a&b<c>d").data = true ∧
    hasSub "&lt;".data (escape_slack_text "a&b<c>d").data = true ∧
    hasSub "&gt;".data (escape_slack_text "a&b<c>d").data = true ∧
    hasSub "&amp;amp;".data (escape_slack_text "a&b<c>d").data = false := by
  refine ⟨by decide, by decide, by decide, by decide, ?_, ?_, ?_, ?_⟩
  · exact (escape_entities_no_reescape "a&b<c>d").1 (by decide)
  · exact (escape_entities_no_reescape "a&b<c>d").2.1 (by decide)
  · exact (escape_entities_no_reescape "a&b<c>d").2.2.1 (by decide)
  · exact (escape_entities_no_reescape "a&b<c>d").2.2.2.2.2.2 (by decide)

end SendSlack
